import Mathlib

/-!
Verification of the natural-language specification of the
hyperpolymath/chimichanga test fixture (src/test_wasm/src/lib.rs)
against a shallow embedding of its Rust source in Lean 4.

The fixture is a no_std Rust crate compiled to WebAssembly.  Machine
integers are embedded as Lean Int with explicit two-complement wrapping
(wrap32, wrap64); the static mut globals (STATE, HISTORY, HISTORY_INDEX,
BUFFER) form the record St; loops that can run forever are embedded with
an explicit fuel parameter, mirroring the fuel-metered execution contract
the specification describes.

The file is organised with all definitions (the embedding of the source)
first, followed by all theorems (supporting lemmas and the claim
theorems C1 to C10 with their witnesses and counterexamples).
-/

set_option maxRecDepth 2000

namespace Chimichanga

/-- Wrap an unbounded integer to the i32 range, two-complement style. -/
def wrap32 (x : Int) : Int := (x + 2 ^ 31) % 2 ^ 32 - 2 ^ 31

/-- Wrap an unbounded integer to the i64 range, two-complement style. -/
def wrap64 (x : Int) : Int := (x + 2 ^ 63) % 2 ^ 64 - 2 ^ 63

/-- The mutable globals of src/test_wasm/src/lib.rs: STATE, the 100-slot
HISTORY with its index, and the 1024-byte BUFFER.  The arrays are embedded
as total maps; the source only ever reads or writes them at in-bounds
indices (HISTORY behind the guard HISTORY_INDEX < 100, BUFFER behind
explicit bounds checks). -/
structure St where
  STATE : Int
  HISTORY : Nat → Int
  HISTORY_INDEX : Nat
  BUFFER : Nat → Nat

/-- Fresh instance: Rust static muts are zero-initialised. -/
def initSt : St :=
  { STATE := 0, HISTORY := fun _ => 0, HISTORY_INDEX := 0, BUFFER := fun _ => 0 }

/-- Modelled from the spec: trap kinds the harness distinguishes. -/
inductive TrapKind where
  | OutOfBoundsMemory
  | Unreachable
  | DivideByZero
  | Other
deriving DecidableEq

/-- Modelled from the spec: structured result of one invocation. -/
inductive Outcome where
  | Returned (v : Int)
  | Trapped (k : TrapKind)
  | FuelExhausted
deriving DecidableEq

/-- pub extern fn add(a: i32, b: i32) -> i32 { a.wrapping_add(b) } -/
def add (a b : Int) : Int := wrap32 (a + b)

/-- pub extern fn multiply(a: i32, b: i32) -> i32 { a.wrapping_mul(b) } -/
def multiply (a b : Int) : Int := wrap32 (a * b)

/-- Recursion kernel of factorial, indexed by the (nonnegative) argument;
factNat k computes factorial at the integer k. -/
def factNat : Nat → Int
  | 0 => 1
  | 1 => 1
  | (m + 2) => wrap64 ((m + 2 : Int) * factNat (m + 1))

/-- pub extern fn factorial(n: i32) -> i64:
if n <= 1 then 1 else (n as i64).wrapping_mul(factorial(n - 1)). -/
def factorial (n : Int) : Int := if n ≤ 1 then 1 else factNat n.toNat

/-- Recursion kernel of fib, indexed by the (nonnegative) argument. -/
def fibNat : Nat → Int
  | 0 => 0
  | 1 => 1
  | (m + 2) => wrap64 (fibNat (m + 1) + fibNat m)

/-- pub extern fn fib(n: i32) -> i64:
if n <= 1 then n as i64 else fib(n-1).wrapping_add(fib(n-2)). -/
def fib (n : Int) : Int := if n ≤ 1 then n else fibNat n.toNat

/-- Loop body of infinite_loop: x = x.wrapping_add(1) forever; the fuel
parameter meters loop iterations, as the harness contract of the spec
requires. -/
def infLoop : Nat → Int → Outcome
  | 0, _ => .FuelExhausted
  | f + 1, x => infLoop f (wrap32 (x + 1))

/-- pub extern fn infinite_loop() -> i32: let mut x = 0; loop with
x = x.wrapping_add(1); never returns. -/
def infinite_loop (fuel : Nat) : Outcome := infLoop fuel 0

/-- Ascending write loop over the buffer: for i in 0..k starting at index
i0, BUFFER[i] = f i.  Used by write_pattern and fill_incrementing. -/
def fillGo (f : Nat → Nat) : Nat → Nat → (Nat → Nat) → (Nat → Nat)
  | 0, _, buf => buf
  | k + 1, i0, buf => fillGo f k (i0 + 1) (fun j => if j = i0 then f i0 else buf j)

/-- pub extern fn write_pattern(pattern: u8, length: i32) -> i32:
let len = length.min(1024) as usize; for i in 0..len BUFFER[i] = pattern;
returns len as i32.  If length is negative, the usize cast wraps to a huge
length, the loop runs past the 1024-byte buffer and the index expression
BUFFER[i] panics at i = 1024; the panic handler of the module is an
infinite loop, so no value is ever returned (first component none). -/
def write_pattern (pattern : Nat) (length : Int) (s : St) : Option Int × St :=
  if ((min length 1024) % 2 ^ 64).toNat ≤ 1024 then
    (some (wrap32 (((min length 1024) % 2 ^ 64).toNat : Int)),
     { s with BUFFER := fillGo (fun _ => pattern) ((min length 1024) % 2 ^ 64).toNat 0 s.BUFFER })
  else
    (none, { s with BUFFER := fillGo (fun _ => pattern) 1024 0 s.BUFFER })

/-- pub extern fn read_buffer(index: i32) -> i32: the byte at the index if
0 <= index < 1024, and -1 otherwise. -/
def read_buffer (index : Int) (s : St) : Int :=
  if 0 ≤ index ∧ index < 1024 then (s.BUFFER index.toNat : Int) else -1

/-- Scan loop of scan_for_pattern: k slots remain, current index i. -/
def scanGo (pattern : Nat) (buf : Nat → Nat) : Nat → Nat → Int
  | 0, _ => -1
  | k + 1, i => if buf i = pattern then (i : Int) else scanGo pattern buf k (i + 1)

/-- pub extern fn scan_for_pattern(pattern: u8) -> i32: first index i in
0..1024 with BUFFER[i] == pattern, else -1. -/
def scan_for_pattern (pattern : Nat) (s : St) : Int :=
  scanGo pattern s.BUFFER 1024 0

/-- pub extern fn fill_incrementing() -> i32: BUFFER[i] = (i % 256) as u8
for i in 0..1024; returns 1024. -/
def fill_incrementing (s : St) : Int × St :=
  (1024, { s with BUFFER := fillGo (fun i => i % 256) 1024 0 s.BUFFER })

/-- Shared body of stateful_increment, crash_after_n and
increment_until_exhausted: STATE = STATE.wrapping_add(1); if
HISTORY_INDEX < 100 then HISTORY[HISTORY_INDEX] = STATE and
HISTORY_INDEX += 1. -/
def incState (s : St) : St :=
  let st := wrap32 (s.STATE + 1)
  if s.HISTORY_INDEX < 100 then
    { s with STATE := st,
             HISTORY := fun j => if j = s.HISTORY_INDEX then st else s.HISTORY j,
             HISTORY_INDEX := s.HISTORY_INDEX + 1 }
  else
    { s with STATE := st }

/-- pub extern fn stateful_increment() -> i32: one incState step, returning
the new STATE. -/
def stateful_increment (s : St) : Int × St := ((incState s).STATE, incState s)

/-- pub extern fn get_state() -> i32. -/
def get_state (s : St) : Int := s.STATE

/-- pub extern fn reset_state() -> i32: STATE = 0, HISTORY_INDEX = 0, the
loop zeroes all 100 HISTORY slots; returns 0. -/
def reset_state (s : St) : Int × St :=
  (0, { s with STATE := 0, HISTORY_INDEX := 0,
               HISTORY := fun j => if j < 100 then 0 else s.HISTORY j })

/-- k sequential stateful_increment calls threaded through the state. -/
def iterInc : Nat → St → St
  | 0, s => s
  | k + 1, s => iterInc k (incState s)

/-- pub extern fn crash_after_n(n: i32) -> i32: for the loop runs n times
(none when n <= 0) performing the incState body, then executes
core arch wasm32 unreachable, trapping. -/
def crash_after_n (n : Int) (s : St) : Outcome × St :=
  (.Trapped .Unreachable, iterInc n.toNat s)

/-- pub extern fn increment_until_exhausted() -> i32: the incState body in
an unconditional loop; only fuel exhaustion stops it. -/
def increment_until_exhausted : Nat → St → Outcome × St
  | 0, s => (.FuelExhausted, s)
  | f + 1, s => increment_until_exhausted f (incState s)

/-- The panic handler of the crate: fn panic(info) -> never { loop with
empty body }.  Any finite fuel is exhausted without returning. -/
def panic_handler : Nat → Outcome
  | 0 => .FuelExhausted
  | f + 1 => panic_handler f

/-- pub extern fn trap_div_zero(a: i32) -> i32 { a / 0 }: under Rust
semantics an integer division by zero panics (rustc even rejects a
division by the literal 0 through the unconditional_panic deny lint); with
the panic handler of this crate the call therefore loops forever and never
produces a wasm divide-by-zero trap. -/
def trap_div_zero (fuel : Nat) (_a : Int) : Outcome := panic_handler fuel

/-- Trial-division loop of is_prime: while i*i <= n, testing n % i and
n % (i+2) and stepping i += 6.  All i32 operations wrap (the source
computes i * i, i + 2 and i += 6 in i32), so the loop need not terminate
for every mathematical argument and is metered by fuel.  Rust % is
truncating remainder, Int.tmod.  The divisors i and i + 2 are always odd
on every reachable state (i stays congruent to 5 mod 6 modulo 2^32), so
the remainder never divides by zero. -/
def isPrimeLoop : Nat → Int → Int → Option Int
  | 0, _, _ => none
  | f + 1, n, i =>
    if wrap32 (i * i) ≤ n then
      if n.tmod i = 0 ∨ n.tmod (wrap32 (i + 2)) = 0 then some 0
      else isPrimeLoop f n (wrap32 (i + 6))
    else some 1

/-- pub extern fn is_prime(n: i32) -> i32: n <= 1 gives 0, n <= 3 gives 1,
multiples of 2 or 3 give 0, then the trial-division loop from i = 5. -/
def is_prime (fuel : Nat) (n : Int) : Option Int :=
  if n ≤ 1 then some 0
  else if n ≤ 3 then some 1
  else if n.tmod 2 = 0 ∨ n.tmod 3 = 0 then some 0
  else isPrimeLoop fuel n 5

/-- Loop of count_primes over i in 2..=n with k iterations remaining. -/
def countLoop (fuel : Nat) : Nat → Int → Int → Option Int
  | 0, _, count => some count
  | k + 1, i, count =>
    match is_prime fuel i with
    | none => none
    | some r => countLoop fuel k (i + 1) (if r = 1 then wrap32 (count + 1) else count)

/-- pub extern fn count_primes(n: i32) -> i32: counts i in 2..=n with
is_prime(i) == 1. -/
def count_primes (fuel : Nat) (n : Int) : Option Int :=
  countLoop fuel (n - 1).toNat 2 0

theorem wrap32_eq_self {x : Int} (h1 : -2 ^ 31 ≤ x) (h2 : x < 2 ^ 31) :
    wrap32 x = x := by
  unfold wrap32; omega

theorem wrap32_lt (x : Int) : wrap32 x < 2 ^ 31 := by
  unfold wrap32; omega

theorem wrap32_ge (x : Int) : -2 ^ 31 ≤ wrap32 x := by
  unfold wrap32; omega

theorem wrap32_wrap32_add (x y : Int) :
    wrap32 (wrap32 x + y) = wrap32 (x + y) := by
  unfold wrap32; omega

/-- The embedding satisfies the recurrence of the Rust source verbatim. -/
theorem factorial_eq (n : Int) :
    factorial n = if n ≤ 1 then 1 else wrap64 (n * factorial (n - 1)) := by
  by_cases h : n ≤ 1
  · simp [factorial, h]
  · push_neg at h
    have h2 : (2 : Int) ≤ n := h
    obtain ⟨m, hm⟩ : ∃ m : Nat, n.toNat = m + 2 :=
      ⟨n.toNat - 2, by omega⟩
    have hn : (m + 2 : Int) = n := by omega
    have hsub : (n - 1).toNat = m + 1 := by omega
    by_cases h3 : n ≤ 2
    · have : n = 2 := le_antisymm h3 h2
      subst this
      simp [factorial, factNat]
    · push_neg at h3
      have : ¬ (n - 1 ≤ 1) := by omega
      simp only [factorial, if_neg (by omega : ¬ n ≤ 1), if_neg this, hm, hsub, factNat, hn]

/-- The embedding satisfies the recurrence of the Rust source verbatim. -/
theorem fib_eq (n : Int) :
    fib n = if n ≤ 1 then n else wrap64 (fib (n - 1) + fib (n - 2)) := by
  by_cases h : n ≤ 1
  · simp [fib, h]
  · push_neg at h
    obtain ⟨m, hm⟩ : ∃ m : Nat, n.toNat = m + 2 :=
      ⟨n.toNat - 2, by omega⟩
    have hs1 : (n - 1).toNat = m + 1 := by omega
    have hs2 : (n - 2).toNat = m := by omega
    rcases Nat.eq_zero_or_pos m with hm0 | hmpos
    · subst hm0
      have hn2 : n = 2 := by omega
      subst hn2
      simp [fib, fibNat]
    · obtain ⟨l, hl⟩ : ∃ l : Nat, m = l + 1 := ⟨m - 1, by omega⟩
      subst hl
      have h1 : ¬ (n - 1 ≤ 1) := by omega
      have h2 : ¬ (n - 2 ≤ 1) ∨ n - 2 = 1 := by omega
      rcases h2 with h2 | h2
      · simp only [fib, if_neg (by omega : ¬ n ≤ 1), if_neg h1, if_neg h2, hm, hs1, hs2,
          fibNat]
      · have hl0 : l = 0 := by omega
        subst hl0
        have hn3 : n = 3 := by omega
        subst hn3
        simp [fib, fibNat]

theorem fillGo_spec (f : Nat → Nat) :
    ∀ (k i0 : Nat) (buf : Nat → Nat) (j : Nat),
      fillGo f k i0 buf j = if i0 ≤ j ∧ j < i0 + k then f j else buf j := by
  intro k
  induction k with
  | zero =>
    intro i0 buf j
    simp only [fillGo]
    rw [if_neg (by omega)]
  | succ k ih =>
    intro i0 buf j
    rw [fillGo, ih]
    by_cases h1 : i0 + 1 ≤ j ∧ j < i0 + 1 + k
    · rw [if_pos h1, if_pos (by omega)]
    · rw [if_neg h1]
      by_cases h2 : j = i0
      · rw [if_pos h2, h2, if_pos (show i0 ≤ i0 ∧ i0 < i0 + (k + 1) by omega)]
      · rw [if_neg h2, if_neg (by omega)]

theorem incState_STATE (s : St) : (incState s).STATE = wrap32 (s.STATE + 1) := by
  unfold incState
  by_cases h : s.HISTORY_INDEX < 100 <;> simp [h]

/-- State evolution of k sequential increment steps, in the range where
the i32 counter does not wrap: STATE counts up exactly and HISTORY records
the first min 100 values. -/
theorem iterInc_spec :
    ∀ (k c : Nat) (s : St),
      (c : Int) + (k : Int) < 2 ^ 31 →
      s.STATE = (c : Int) →
      s.HISTORY_INDEX = min c 100 →
      (∀ j, j < min c 100 → s.HISTORY j = (j : Int) + 1) →
      (iterInc k s).STATE = ((c + k : Nat) : Int) ∧
      (iterInc k s).HISTORY_INDEX = min (c + k) 100 ∧
      (∀ j, j < min (c + k) 100 → (iterInc k s).HISTORY j = (j : Int) + 1) := by
  intro k
  induction k with
  | zero =>
    intro c s _ hS hI hH
    exact ⟨by simpa [iterInc] using hS, by simpa [iterInc] using hI,
           by simpa [iterInc] using hH⟩
  | succ k ih =>
    intro c s hck hS hI hH
    rw [iterInc]
    have hst : (incState s).STATE = ((c + 1 : Nat) : Int) := by
      rw [incState_STATE, hS]
      rw [wrap32_eq_self (by push_cast; omega) (by push_cast; omega)]
      push_cast; ring
    have step : (incState s).HISTORY_INDEX = min (c + 1) 100 ∧
        (∀ j, j < min (c + 1) 100 → (incState s).HISTORY j = (j : Int) + 1) := by
      by_cases hidx : s.HISTORY_INDEX < 100
      · have hc100 : c < 100 := by omega
        have hIc : s.HISTORY_INDEX = c := by omega
        constructor
        · simp only [incState, if_pos hidx]; omega
        · intro j hj
          simp only [incState, if_pos hidx]
          by_cases hjc : j = s.HISTORY_INDEX
          · rw [if_pos hjc]
            rw [incState_STATE s] at hst
            rw [hst]; push_cast; omega
          · rw [if_neg hjc]
            exact hH j (by omega)
      · have hc100 : 100 ≤ c := by omega
        constructor
        · simp only [incState, if_neg hidx]; omega
        · intro j hj
          simp only [incState, if_neg hidx]
          exact hH j (by omega)
    have h := ih (c + 1) (incState s) (by push_cast at hck ⊢; omega) hst step.1 step.2
    refine ⟨?_, ?_, ?_⟩
    · rw [h.1]; congr 1; omega
    · rw [h.2.1]; congr 1; omega
    · intro j hj
      exact h.2.2 j (by omega)

/-- Full-range state evolution: after k steps the counter is the i32
wrap of STATE + k. -/
theorem iterInc_STATE_wrap :
    ∀ (k : Nat) (s : St), -2 ^ 31 ≤ s.STATE → s.STATE < 2 ^ 31 →
      (iterInc k s).STATE = wrap32 (s.STATE + k) := by
  intro k
  induction k with
  | zero =>
    intro s h1 h2
    rw [iterInc]
    rw [show s.STATE + ((0 : Nat) : Int) = s.STATE by push_cast; ring]
    exact (wrap32_eq_self h1 h2).symm
  | succ k ih =>
    intro s h1 h2
    rw [iterInc]
    have hst := incState_STATE s
    rw [ih (incState s) (hst ▸ wrap32_ge _) (hst ▸ wrap32_lt _), hst, wrap32_wrap32_add]
    congr 1
    push_cast; ring

set_option maxRecDepth 8000 in
/-- C1: the pure computations return the example values of the spec:
add(2,3) = 5, multiply(4,5) = 20, factorial(5) = 120, fib(10) = 55,
is_prime(17) = 1, is_prime(18) = 0 and count_primes(10) = 4, each call
given enough fuel to run to completion (no fuel limit). -/
theorem c1_pure_values :
    add 2 3 = 5 ∧ multiply 4 5 = 20 ∧ factorial 5 = 120 ∧ fib 10 = 55 ∧
    (∃ f, is_prime f 17 = some 1) ∧ (∃ f, is_prime f 18 = some 0) ∧
    (∃ f, count_primes f 10 = some 4) :=
  ⟨by decide, by decide, by decide, by decide,
   ⟨1, by decide⟩, ⟨0, by decide⟩, ⟨1, by decide⟩⟩

/-- C2 counterexample: after 2^31 sequential stateful_increment calls on a
reset instance the i32 counter has wrapped, so get_state is not 2^31 (it
is -2^31); the claim fails at k = 2^31. -/
theorem c2_counterexample :
    get_state (iterInc (2 ^ 31) (reset_state initSt).2) ≠ ((2 ^ 31 : Nat) : Int) := by
  have h0 : (reset_state initSt).2.STATE = 0 := rfl
  have h := iterInc_STATE_wrap (2 ^ 31) (reset_state initSt).2
    (by rw [h0]; norm_num) (by rw [h0]; norm_num)
  rw [get_state, h, h0]
  unfold wrap32
  push_cast
  try omega

/-- C2 (amended: k below 2^31, where the i32 counter cannot wrap): k
sequential stateful_increment calls after reset_state leave
get_state() == k, and HISTORY records min(k,100) entries (the values
1..min(k,100)). -/
theorem c2_state_after_k_increments :
    ∀ (s0 : St) (k : Nat), (k : Int) < 2 ^ 31 →
      get_state (iterInc k (reset_state s0).2) = (k : Int) ∧
      (iterInc k (reset_state s0).2).HISTORY_INDEX = min k 100 ∧
      (∀ j, j < min k 100 →
        (iterInc k (reset_state s0).2).HISTORY j = (j : Int) + 1) := by
  intro s0 k hk
  have h := iterInc_spec k 0 (reset_state s0).2
    (by push_cast; omega) (by push_cast; rfl) (by simp [reset_state])
    (fun j hj => absurd hj (by omega))
  refine ⟨?_, ?_, ?_⟩
  · have h1 := h.1
    show (iterInc k (reset_state s0).2).STATE = (k : Int)
    omega
  · rw [h.2.1]; congr 1; omega
  · intro j hj; exact h.2.2 j (by omega)

/-- C2 witness: the amended theorem applied at k = 5. -/
theorem c2_witness :
    ((5 : Nat) : Int) < 2 ^ 31 ∧
    get_state (iterInc 5 (reset_state initSt).2) = 5 ∧
    (iterInc 5 (reset_state initSt).2).HISTORY_INDEX = 5 := by
  have h := c2_state_after_k_increments initSt 5 (by norm_num)
  exact ⟨by norm_num, h.1, by rw [h.2.1]; decide⟩

/-- C3: on a fresh or reset instance (STATE and HISTORY_INDEX zero),
crash_after_n(n) for an i32 argument n at least 0 increments STATE n
times, recording the values 1..min(n,100) in HISTORY, and traps with the
unreachable marker, leaving STATE == n visible after the trap. -/
theorem c3_crash_after_n :
    ∀ (s : St) (n : Int), s.STATE = 0 → s.HISTORY_INDEX = 0 →
      0 ≤ n → n < 2 ^ 31 →
      (crash_after_n n s).1 = Outcome.Trapped TrapKind.Unreachable ∧
      (crash_after_n n s).2.STATE = n ∧
      (crash_after_n n s).2.HISTORY_INDEX = min n.toNat 100 ∧
      (∀ j, j < min n.toNat 100 →
        (crash_after_n n s).2.HISTORY j = (j : Int) + 1) := by
  intro s n hS hI h0 hlt
  have h := iterInc_spec n.toNat 0 s (by omega) (by push_cast; omega)
    (by omega) (fun j hj => absurd hj (by omega))
  refine ⟨rfl, ?_, ?_, ?_⟩
  · show (iterInc n.toNat s).STATE = n
    rw [h.1]; omega
  · show (iterInc n.toNat s).HISTORY_INDEX = min n.toNat 100
    rw [h.2.1]; congr 1; omega
  · intro j hj
    exact h.2.2 j (by omega)

/-- C3 witness: crash_after_n(5) on the fresh instance traps via
unreachable with STATE == 5 afterwards. -/
theorem c3_witness :
    initSt.STATE = 0 ∧ initSt.HISTORY_INDEX = 0 ∧ (0 : Int) ≤ 5 ∧ (5 : Int) < 2 ^ 31 ∧
    (crash_after_n 5 initSt).1 = Outcome.Trapped TrapKind.Unreachable ∧
    (crash_after_n 5 initSt).2.STATE = 5 :=
  ⟨rfl, rfl, by norm_num, by norm_num,
   (c3_crash_after_n initSt 5 rfl rfl (by norm_num) (by norm_num)).1,
   (c3_crash_after_n initSt 5 rfl rfl (by norm_num) (by norm_num)).2.1⟩

/-- C4 counterexample: for the negative length -1 the claim would demand
the return value min(-1,1024) = -1, but the usize cast wraps the length to
2^64 - 1, the fill loop overruns the 1024-byte buffer and panics into the
infinite panic handler, so no value is returned at all. -/
theorem c4_counterexample :
    (write_pattern 171 (-1) initSt).1 ≠ some (min (-1 : Int) 1024) := by
  have h : (write_pattern 171 (-1) initSt).1 = none := by
    rw [write_pattern]
    rw [if_neg (by decide)]
  rw [h]
  intro hcontra
  exact Option.noConfusion hcontra

/-- C4 (amended: nonnegative lengths, the i32 range in which the usize
cast of the clamped length cannot wrap): write_pattern(p, L) fills exactly
min(L,1024) bytes of the buffer with p and returns that count; in
particular write_pattern(0xAB, 2000) fills all 1024 bytes and returns
1024, and read_buffer(0) afterwards returns 171. -/
theorem c4_write_pattern :
    (∀ (p : Nat) (L : Int) (s : St), 0 ≤ L →
      (write_pattern p L s).1 = some (min L 1024) ∧
      (∀ j : Nat, (write_pattern p L s).2.BUFFER j =
        if (j : Int) < min L 1024 then p else s.BUFFER j)) ∧
    (write_pattern 171 2000 initSt).1 = some 1024 ∧
    read_buffer 0 (write_pattern 171 2000 initSt).2 = 171 := by
  have hgen : ∀ (p : Nat) (L : Int) (s : St), 0 ≤ L →
      (write_pattern p L s).1 = some (min L 1024) ∧
      (∀ j : Nat, (write_pattern p L s).2.BUFFER j =
        if (j : Int) < min L 1024 then p else s.BUFFER j) := by
    intro p L s h0
    have hmin1 : 0 ≤ min L 1024 := by omega
    have hmin2 : min L 1024 ≤ 1024 := by omega
    have hmod : min L 1024 % 2 ^ 64 = min L 1024 := Int.emod_eq_of_lt hmin1 (by omega)
    have hulen : (min L 1024 % 2 ^ 64).toNat ≤ 1024 := by omega
    have hcast : (((min L 1024 % 2 ^ 64).toNat : Nat) : Int) = min L 1024 := by omega
    constructor
    · unfold write_pattern
      rw [if_pos hulen]
      rw [hcast, wrap32_eq_self (by omega) (by omega)]
    · intro j
      unfold write_pattern
      rw [if_pos hulen]
      dsimp only
      rw [fillGo_spec]
      by_cases hj : (j : Int) < min L 1024
      · rw [if_pos (by omega), if_pos hj]
      · rw [if_neg (by omega), if_neg hj]
  refine ⟨hgen, ?_, ?_⟩
  · have h := (hgen 171 2000 initSt (by norm_num)).1
    rw [h]; norm_num
  · have h := (hgen 171 2000 initSt (by norm_num)).2 0
    rw [read_buffer, if_pos (by norm_num)]
    rw [show ((0 : Int).toNat) = 0 from rfl, h]
    norm_num

/-- C4 witness: the amended theorem applied at pattern 171, length 2000. -/
theorem c4_witness :
    (0 : Int) ≤ 2000 ∧ (write_pattern 171 2000 initSt).1 = some (min (2000 : Int) 1024) :=
  ⟨by norm_num, (c4_write_pattern.1 171 2000 initSt (by norm_num)).1⟩

theorem infLoop_exhausts : ∀ (f : Nat) (x : Int), infLoop f x = Outcome.FuelExhausted := by
  intro f
  induction f with
  | zero => intro x; rfl
  | succ f ih => intro x; rw [infLoop]; exact ih _

/-- C5: infinite_loop does not terminate: under every finite positive fuel
budget the outcome is FuelExhausted, never Returned. -/
theorem c5_infinite_loop_exhausts :
    ∀ f : Nat, 0 < f →
      infinite_loop f = Outcome.FuelExhausted ∧
      ∀ v : Int, infinite_loop f ≠ Outcome.Returned v := by
  intro f _
  have h : infinite_loop f = Outcome.FuelExhausted := infLoop_exhausts f 0
  refine ⟨h, fun v hv => ?_⟩
  rw [h] at hv
  exact Outcome.noConfusion hv

/-- C5 witness: fuel budget 5. -/
theorem c5_witness : 0 < 5 ∧ infinite_loop 5 = Outcome.FuelExhausted :=
  ⟨by norm_num, (c5_infinite_loop_exhausts 5 (by norm_num)).1⟩

theorem panic_handler_exhausts : ∀ f : Nat, panic_handler f = Outcome.FuelExhausted := by
  intro f
  induction f with
  | zero => rfl
  | succ f ih => rw [panic_handler]; exact ih

/-- C6 (code bug): trap_div_zero never produces the divide-by-zero trap
the claim demands.  The Rust division a / 0 panics (rustc rejects the
literal-zero divisor outright via the unconditional_panic deny lint), and
the panic handler of the crate is an infinite empty loop, so for every
argument and every finite fuel budget the outcome is FuelExhausted, never
Trapped(DivideByZero). -/
theorem c6_divzero_never_traps :
    ∀ (f : Nat) (a : Int),
      trap_div_zero f a = Outcome.FuelExhausted ∧
      trap_div_zero f a ≠ Outcome.Trapped TrapKind.DivideByZero := by
  intro f a
  have h : trap_div_zero f a = Outcome.FuelExhausted := panic_handler_exhausts f
  refine ⟨h, fun hv => ?_⟩
  rw [h] at hv
  exact Outcome.noConfusion hv

theorem scanGo_spec (p : Nat) (buf : Nat → Nat) :
    ∀ (k i : Nat),
      (scanGo p buf k i = -1 ∧ ∀ j, i ≤ j → j < i + k → buf j ≠ p) ∨
      (∃ j, i ≤ j ∧ j < i + k ∧ buf j = p ∧ scanGo p buf k i = (j : Int) ∧
        ∀ l, i ≤ l → l < j → buf l ≠ p) := by
  intro k
  induction k with
  | zero =>
    intro i
    left
    exact ⟨rfl, fun j h1 h2 => absurd h2 (by omega)⟩
  | succ k ih =>
    intro i
    by_cases hb : buf i = p
    · right
      refine ⟨i, le_refl i, by omega, hb, ?_, fun l h1 h2 => absurd h2 (by omega)⟩
      rw [scanGo, if_pos hb]
    · rcases ih (i + 1) with ⟨h1, h2⟩ | ⟨j, hj1, hj2, hj3, hj4, hj5⟩
      · left
        refine ⟨?_, ?_⟩
        · rw [scanGo, if_neg hb]; exact h1
        · intro j hij hjk
          by_cases hji : j = i
          · rw [hji]; exact hb
          · exact h2 j (by omega) (by omega)
      · right
        refine ⟨j, by omega, by omega, hj3, ?_, ?_⟩
        · rw [scanGo, if_neg hb]; exact hj4
        · intro l h1l h2l
          by_cases hli : l = i
          · rw [hli]; exact hb
          · exact hj5 l (by omega) h2l

/-- C8: scan_for_pattern returns the first index of the 1024-byte buffer
whose byte equals the pattern, and -1 when no byte matches; in particular,
after fill_incrementing (buffer byte i becomes i mod 256), scanning for 7
returns index 7. -/
theorem c8_scan_first_index :
    (∀ (s : St) (p : Nat),
      (scan_for_pattern p s = -1 ∧ ∀ i, i < 1024 → s.BUFFER i ≠ p) ∨
      (∃ i, i < 1024 ∧ s.BUFFER i = p ∧ scan_for_pattern p s = (i : Int) ∧
        ∀ j, j < i → s.BUFFER j ≠ p)) ∧
    scan_for_pattern 7 (fill_incrementing initSt).2 = 7 := by
  have hchar : ∀ (s : St) (p : Nat),
      (scan_for_pattern p s = -1 ∧ ∀ i, i < 1024 → s.BUFFER i ≠ p) ∨
      (∃ i, i < 1024 ∧ s.BUFFER i = p ∧ scan_for_pattern p s = (i : Int) ∧
        ∀ j, j < i → s.BUFFER j ≠ p) := by
    intro s p
    rcases scanGo_spec p s.BUFFER 1024 0 with ⟨h1, h2⟩ | ⟨j, hj1, hj2, hj3, hj4, hj5⟩
    · left
      exact ⟨h1, fun i hi => h2 i (Nat.zero_le i) (by omega)⟩
    · right
      exact ⟨j, by omega, hj3, hj4, fun l hl => hj5 l (Nat.zero_le l) hl⟩
  have hbuf : ∀ j : Nat, j < 1024 → (fill_incrementing initSt).2.BUFFER j = j % 256 := by
    intro j hj
    simp only [fill_incrementing]
    rw [fillGo_spec, if_pos (by omega)]
  refine ⟨hchar, ?_⟩
  rcases hchar (fill_incrementing initSt).2 7 with ⟨h1, h2⟩ | ⟨i, hi, hbi, heq, hmin⟩
  · exact absurd (hbuf 7 (by norm_num)) (h2 7 (by norm_num))
  · have hi7 : i = 7 := by
      have hmod : i % 256 = 7 := by rw [← hbuf i hi]; exact hbi
      by_contra hne
      have hgt : 7 < i := by omega
      exact hmin 7 hgt (by rw [hbuf 7 (by norm_num)])
    rw [heq, hi7]
    rfl

/-- C8 witness: the characterization applied at the concrete post-fill
state and pattern 7 resolves to the first matching index. -/
theorem c8_witness : scan_for_pattern 7 (fill_incrementing initSt).2 = 7 :=
  c8_scan_first_index.2

/-- C9: read_buffer returns the buffer byte (a nonnegative value below
256 cast to i32) at every index inside [0,1024) and -1 at every index
outside; in particular read_buffer(1024) = -1. -/
theorem c9_read_buffer :
    (∀ (s : St) (i : Int),
      read_buffer i s = if 0 ≤ i ∧ i < 1024 then (s.BUFFER i.toNat : Int) else -1) ∧
    (∀ (s : St) (i : Int), 0 ≤ i → i < 1024 → 0 ≤ read_buffer i s) ∧
    (∀ s : St, read_buffer 1024 s = -1) := by
  refine ⟨fun s i => rfl, ?_, ?_⟩
  · intro s i h1 h2
    rw [read_buffer, if_pos ⟨h1, h2⟩]
    exact Int.natCast_nonneg _
  · intro s
    rw [read_buffer, if_neg (by omega)]

/-- C9 witness: index 5 is inside the buffer and the read is
nonnegative. -/
theorem c9_witness :
    (0 : Int) ≤ 5 ∧ (5 : Int) < 1024 ∧ 0 ≤ read_buffer 5 initSt :=
  ⟨by norm_num, by norm_num, c9_read_buffer.2.1 initSt 5 (by norm_num) (by norm_num)⟩

theorem incState_idx_le (s : St) (h : s.HISTORY_INDEX ≤ 100) :
    (incState s).HISTORY_INDEX ≤ 100 := by
  unfold incState
  by_cases hidx : s.HISTORY_INDEX < 100 <;> simp [hidx] <;> omega

theorem iterInc_idx_le :
    ∀ (k : Nat) (s : St), s.HISTORY_INDEX ≤ 100 → (iterInc k s).HISTORY_INDEX ≤ 100 := by
  intro k
  induction k with
  | zero => intro s h; exact h
  | succ k ih => intro s h; rw [iterInc]; exact ih _ (incState_idx_le s h)

/-- C10: the invariant HISTORY_INDEX ≤ 100 (the index is a usize, hence
nonnegative by type) holds in the initial state and is preserved by
stateful_increment, reset_state, crash_after_n and
increment_until_exhausted, and the shared increment body only ever writes
HISTORY at the current index under the guard HISTORY_INDEX < 100, inside
the 100-slot bounds. -/
theorem c10_history_index_invariant :
    initSt.HISTORY_INDEX ≤ 100 ∧
    (∀ s : St, s.HISTORY_INDEX ≤ 100 →
      (stateful_increment s).2.HISTORY_INDEX ≤ 100) ∧
    (∀ s : St, (reset_state s).2.HISTORY_INDEX ≤ 100) ∧
    (∀ (s : St) (n : Int), s.HISTORY_INDEX ≤ 100 →
      (crash_after_n n s).2.HISTORY_INDEX ≤ 100) ∧
    (∀ (s : St) (f : Nat), s.HISTORY_INDEX ≤ 100 →
      (increment_until_exhausted f s).2.HISTORY_INDEX ≤ 100) ∧
    (∀ (s : St) (j : Nat), (incState s).HISTORY j ≠ s.HISTORY j →
      j = s.HISTORY_INDEX ∧ j < 100) := by
  refine ⟨by norm_num [initSt], ?_, ?_, ?_, ?_, ?_⟩
  · intro s h
    exact incState_idx_le s h
  · intro s
    norm_num [reset_state]
  · intro s n h
    exact iterInc_idx_le n.toNat s h
  · intro s f
    induction f generalizing s with
    | zero => intro h; exact h
    | succ f ih =>
      intro h
      rw [increment_until_exhausted]
      exact ih _ (incState_idx_le s h)
  · intro s j hne
    unfold incState at hne
    by_cases hidx : s.HISTORY_INDEX < 100
    · rw [if_pos hidx] at hne
      by_cases hji : j = s.HISTORY_INDEX
      · exact ⟨hji, by omega⟩
      · exact absurd (by simp [hji]) hne
    · rw [if_neg hidx] at hne
      exact absurd rfl hne

/-- C10 witness: the invariant holds initially and one increment step
preserves it. -/
theorem c10_witness :
    initSt.HISTORY_INDEX ≤ 100 ∧ (stateful_increment initSt).2.HISTORY_INDEX ≤ 100 :=
  ⟨c10_history_index_invariant.1,
   c10_history_index_invariant.2.1 initSt (by norm_num [initSt])⟩

theorem int_dvd_toNat {d n : Int} (h0 : 0 ≤ d) (h1 : 0 ≤ n) (h : d ∣ n) :
    d.toNat ∣ n.toNat := by
  have hd : ((d.toNat : Nat) : Int) = d := by omega
  have hn : ((n.toNat : Nat) : Int) = n := by omega
  rw [← hd, ← hn] at h
  exact_mod_cast h

/-- A proper divisor between 2 and n - 1 rules out primality of n. -/
theorem not_prime_of_proper_divisor {n d : Int} (h2 : 2 ≤ d) (hlt : d < n)
    (hdvd : d ∣ n) : ¬ Nat.Prime n.toNat := by
  intro hp
  have := hp.eq_one_or_self_of_dvd d.toNat (int_dvd_toNat (by omega) (by omega) hdvd)
  omega

/-- Correctness of the trial-division loop in the overflow-free regime:
for 5 ≤ n ≤ 46337^2 - 1 not divisible by 2 or 3, starting at i = 6m+5 with
no divisor below i, the loop decides primality of n.  Fuel 7723 - m always
suffices because the loop leaves once i reaches 46337. -/
theorem isPrimeLoop_correct :
    ∀ (f m : Nat) (n : Int),
      5 ≤ n → n ≤ 2147117568 → ¬ (2 : Int) ∣ n → ¬ (3 : Int) ∣ n →
      m ≤ 7722 → 7723 - m ≤ f →
      (∀ d : Int, 2 ≤ d → d < 6 * m + 5 → ¬ d ∣ n) →
      isPrimeLoop f n (6 * (m : Int) + 5) =
        some (if Nat.Prime n.toNat then 1 else 0) := by
  intro f
  induction f with
  | zero =>
    intro m n _ _ _ _ hm hf _
    omega
  | succ f ih =>
    intro m n h5 hub h2 h3 hm hf hinv
    have hm5 : (5 : Int) ≤ 6 * (m : Int) + 5 := by omega
    have hile : 6 * (m : Int) + 5 ≤ 46337 := by omega
    have hii_le : (6 * (m : Int) + 5) * (6 * (m : Int) + 5) ≤ 46337 * 46337 :=
      mul_le_mul hile hile (by omega) (by omega)
    have hwrap_ii : wrap32 ((6 * (m : Int) + 5) * (6 * (m : Int) + 5)) =
        (6 * (m : Int) + 5) * (6 * (m : Int) + 5) := by
      apply wrap32_eq_self
      · nlinarith
      · nlinarith
    have hwrap_i2 : wrap32 ((6 * (m : Int) + 5) + 2) = 6 * (m : Int) + 7 := by
      rw [wrap32_eq_self (by omega) (by omega)]
      ring
    rw [isPrimeLoop, hwrap_ii, hwrap_i2]
    by_cases hg : (6 * (m : Int) + 5) * (6 * (m : Int) + 5) ≤ n
    · rw [if_pos hg]
      by_cases hhit : n.tmod (6 * (m : Int) + 5) = 0 ∨ n.tmod (6 * (m : Int) + 7) = 0
      · rw [if_pos hhit]
        have hnotp : ¬ Nat.Prime n.toNat := by
          rcases hhit with hd | hd
          · refine not_prime_of_proper_divisor (d := 6 * (m : Int) + 5) (by omega) ?_
              (Int.dvd_of_tmod_eq_zero hd)
            nlinarith
          · refine not_prime_of_proper_divisor (d := 6 * (m : Int) + 7) (by omega) ?_
              (Int.dvd_of_tmod_eq_zero hd)
            nlinarith
        rw [if_neg hnotp]
      · rw [if_neg hhit]
        have hnohit := not_or.mp hhit
        have hmlt : m + 1 ≤ 7722 := by
          by_contra hc
          have him : m = 7722 := by omega
          subst him
          norm_num at hg
          omega
        have hw6 : wrap32 ((6 * (m : Int) + 5) + 6) = 6 * ((m + 1 : Nat) : Int) + 5 := by
          rw [wrap32_eq_self (by omega) (by omega)]
          push_cast
          ring
        rw [hw6]
        apply ih (m + 1) n h5 hub h2 h3 hmlt (by omega)
        intro d hd2 hdlt
        push_cast at hdlt
        by_cases hdold : d < 6 * (m : Int) + 5
        · exact hinv d hd2 (by omega)
        · have hcases : d = 6 * (m : Int) + 5 ∨ d = 6 * (m : Int) + 6 ∨
              d = 6 * (m : Int) + 7 ∨ d = 6 * (m : Int) + 8 ∨
              d = 6 * (m : Int) + 9 ∨ d = 6 * (m : Int) + 10 := by omega
          rcases hcases with h | h | h | h | h | h
          · exact fun hdvd => hnohit.1 (Int.tmod_eq_zero_of_dvd (h ▸ hdvd))
          · exact fun hdvd => h2 (dvd_trans ⟨3 * (m : Int) + 3, by ring⟩ (h ▸ hdvd))
          · exact fun hdvd => hnohit.2 (Int.tmod_eq_zero_of_dvd (h ▸ hdvd))
          · exact fun hdvd => h2 (dvd_trans ⟨3 * (m : Int) + 4, by ring⟩ (h ▸ hdvd))
          · exact fun hdvd => h3 (dvd_trans ⟨2 * (m : Int) + 3, by ring⟩ (h ▸ hdvd))
          · exact fun hdvd => h2 (dvd_trans ⟨3 * (m : Int) + 5, by ring⟩ (h ▸ hdvd))
    · rw [if_neg hg]
      push_neg at hg
      have hp : Nat.Prime n.toNat := by
        by_contra hnp
        have hfd := Nat.minFac_dvd n.toNat
        have hfp := Nat.minFac_prime (show n.toNat ≠ 1 by omega)
        have hsq := Nat.minFac_sq_le_self (show 0 < n.toNat by omega) hnp
        rw [pow_two] at hsq
        have hd2 : 2 ≤ n.toNat.minFac := hfp.two_le
        have hdint : ((n.toNat.minFac : Nat) : Int) ∣ n := by
          have h := Int.ofNat_dvd.mpr hfd
          have hn : ((n.toNat : Nat) : Int) = n := by omega
          rwa [hn] at h
        have hdd : ((n.toNat.minFac : Nat) : Int) * (n.toNat.minFac : Int) ≤ n := by
          have h := Int.ofNat_le.mpr hsq
          push_cast at h
          have hn : ((n.toNat : Nat) : Int) = n := by omega
          omega
        have hdlt : ((n.toNat.minFac : Nat) : Int) < 6 * (m : Int) + 5 := by
          nlinarith [Int.natCast_nonneg n.toNat.minFac]
        exact hinv _ (by exact_mod_cast hd2) hdlt hdint
      rw [if_pos hp]

/-- C7 (amended: inputs up to 46337^2 - 1 = 2147117568, where the check
i*i <= n cannot overflow i32): is_prime is a correct trial-division
primality test with 0/1 encoding, every n ≤ 1 yielding 0; fuel 7723
suffices.  For larger i32 inputs the wrapping of i*i breaks the test (see
the counterexample at 2^31 - 1). -/
theorem c7_trial_division :
    ∀ (f : Nat) (n : Int), 7723 ≤ f → n ≤ 2147117568 →
      is_prime f n = some (if Nat.Prime n.toNat then 1 else 0) := by
  intro f n hf hn
  by_cases h1 : n ≤ 1
  · rw [is_prime, if_pos h1]
    have hnp : ¬ Nat.Prime n.toNat := by
      have h : n.toNat = 0 ∨ n.toNat = 1 := by omega
      rcases h with h | h <;> rw [h]
      · exact Nat.not_prime_zero
      · exact Nat.not_prime_one
    rw [if_neg hnp]
  · push_neg at h1
    by_cases h3 : n ≤ 3
    · rw [is_prime, if_neg (by omega), if_pos h3]
      have h : n.toNat = 2 ∨ n.toNat = 3 := by omega
      have hp : Nat.Prime n.toNat := by
        rcases h with h | h <;> rw [h] <;> norm_num
      rw [if_pos hp]
    · push_neg at h3
      by_cases h23 : n.tmod 2 = 0 ∨ n.tmod 3 = 0
      · rw [is_prime, if_neg (by omega), if_neg (by omega), if_pos h23]
        have hnp : ¬ Nat.Prime n.toNat := by
          rcases h23 with h | h
          · exact not_prime_of_proper_divisor (by omega) (by omega)
              (Int.dvd_of_tmod_eq_zero h)
          · exact not_prime_of_proper_divisor (by omega) (by omega)
              (Int.dvd_of_tmod_eq_zero h)
        rw [if_neg hnp]
      · rw [is_prime, if_neg (by omega), if_neg (by omega), if_neg h23]
        have hnohit := not_or.mp h23
        have h2dvd : ¬ (2 : Int) ∣ n := fun hd => hnohit.1 (Int.tmod_eq_zero_of_dvd hd)
        have h3dvd : ¬ (3 : Int) ∣ n := fun hd => hnohit.2 (Int.tmod_eq_zero_of_dvd hd)
        have hinv : ∀ d : Int, 2 ≤ d → d < 6 * ((0 : Nat) : Int) + 5 → ¬ d ∣ n := by
          intro d hd2 hdlt
          have hc : d = 2 ∨ d = 3 ∨ d = 4 := by push_cast at hdlt; omega
          rcases hc with h | h | h
          · exact h ▸ h2dvd
          · exact h ▸ h3dvd
          · exact fun hdvd => h2dvd (dvd_trans ⟨2, by norm_num⟩ (h ▸ hdvd))
        have hloop := isPrimeLoop_correct f 0 n (by omega) hn h2dvd h3dvd
          (by norm_num) (by omega) (by exact_mod_cast hinv)
        have h5 : 6 * ((0 : Nat) : Int) + 5 = 5 := by norm_num
        rwa [h5] at hloop

/-- C7 witness: the amended theorem applied at fuel 7723 and n = 17. -/
theorem c7_witness :
    7723 ≤ 7723 ∧ (17 : Int) ≤ 2147117568 ∧ is_prime 7723 17 = some 1 := by
  refine ⟨le_refl _, by norm_num, ?_⟩
  have h := c7_trial_division 7723 17 (le_refl _) (by norm_num)
  rw [h, if_pos (show Nat.Prime (17 : Int).toNat by rw [show (17 : Int).toNat = 17 from rfl]; norm_num)]

theorem isPrimeLoop_mono :
    ∀ (f1 f2 : Nat) (n i r : Int), f1 ≤ f2 →
      isPrimeLoop f1 n i = some r → isPrimeLoop f2 n i = some r := by
  intro f1
  induction f1 with
  | zero =>
    intro f2 n i r _ h
    exact absurd h (by rw [isPrimeLoop]; exact fun hc => Option.noConfusion hc)
  | succ f ih =>
    intro f2 n i r hle h
    obtain ⟨f2p, rfl⟩ : ∃ g, f2 = g + 1 := ⟨f2 - 1, by omega⟩
    rw [isPrimeLoop] at h ⊢
    by_cases hg : wrap32 (i * i) ≤ n
    · rw [if_pos hg] at h ⊢
      by_cases hhit : n.tmod i = 0 ∨ n.tmod (wrap32 (i + 2)) = 0
      · rwa [if_pos hhit] at h ⊢
      · rw [if_neg hhit] at h ⊢
        exact ih f2p n _ r (by omega) h
    · rwa [if_neg hg] at h ⊢

theorem is_prime_mono (f1 f2 : Nat) (n r : Int) (hle : f1 ≤ f2)
    (h : is_prime f1 n = some r) : is_prime f2 n = some r := by
  unfold is_prime at h ⊢
  split_ifs at h ⊢
  · exact h
  · exact h
  · exact h
  · exact isPrimeLoop_mono f1 f2 n 5 r hle h

/-- The 31st Mersenne number 2^31 - 1 = 2147483647 is prime, by the
Lucas-Lehmer test. -/
theorem mersenne31_prime : Nat.Prime 2147483647 := by
  have h : mersenne 31 = 2147483647 := by norm_num [mersenne]
  have hp : (mersenne 31).Prime := lucas_lehmer_sufficiency 31 (by norm_num) (by norm_num)
  rwa [h] at hp

/-- Run of the trial-division loop on n = 2^31 - 1.  Because n is the
largest i32 value, the wrapped check wrap32(i*i) ≤ n is always true, so
the loop keeps stepping i by 6; since n is prime, no tested divisor hits
until i+2 itself reaches n at step k = 357913940, where n % (i+2) = 0
makes the loop return 0 - declaring the prime composite. -/
theorem isPrimeLoop_M31 :
    ∀ (d k : Nat), k + d = 357913940 →
      ∀ f : Nat, 357913940 - k < f →
        isPrimeLoop f 2147483647 (6 * (k : Int) + 5) = some 0 := by
  intro d
  induction d with
  | zero =>
    intro k hk f hf
    have hk40 : k = 357913940 := by omega
    subst hk40
    obtain ⟨g, rfl⟩ : ∃ g, f = g + 1 := ⟨f - 1, by omega⟩
    rw [isPrimeLoop]
    rw [if_pos (show wrap32 ((6 * ((357913940 : Nat) : Int) + 5) *
        (6 * ((357913940 : Nat) : Int) + 5)) ≤ 2147483647 by
      have := wrap32_lt ((6 * ((357913940 : Nat) : Int) + 5) *
        (6 * ((357913940 : Nat) : Int) + 5))
      omega)]
    rw [if_pos (Or.inr (show Int.tmod 2147483647
        (wrap32 ((6 * ((357913940 : Nat) : Int) + 5) + 2)) = 0 by
      have hw : wrap32 ((6 * ((357913940 : Nat) : Int) + 5) + 2) = 2147483647 := by
        rw [show (6 * ((357913940 : Nat) : Int) + 5) + 2 = 2147483647 by norm_num]
        rw [wrap32_eq_self (by norm_num) (by norm_num)]
      rw [hw, Int.tmod_self]))]
  | succ d ih =>
    intro k hk f hf
    have hklt : k < 357913940 := by omega
    obtain ⟨g, rfl⟩ : ∃ g, f = g + 1 := ⟨f - 1, by omega⟩
    rw [isPrimeLoop]
    rw [if_pos (show wrap32 ((6 * (k : Int) + 5) * (6 * (k : Int) + 5)) ≤ 2147483647 by
      have := wrap32_lt ((6 * (k : Int) + 5) * (6 * (k : Int) + 5))
      omega)]
    have hw2 : wrap32 ((6 * (k : Int) + 5) + 2) = 6 * (k : Int) + 7 := by
      rw [wrap32_eq_self (by omega) (by omega)]
      ring
    have hnohit : ¬ (Int.tmod 2147483647 (6 * (k : Int) + 5) = 0 ∨
        Int.tmod 2147483647 (wrap32 ((6 * (k : Int) + 5) + 2)) = 0) := by
      rw [hw2]
      rintro (h | h)
      · have hdvd : (6 * (k : Int) + 5) ∣ 2147483647 := Int.dvd_of_tmod_eq_zero h
        have hdvdN : (6 * k + 5 : Nat) ∣ 2147483647 := by exact_mod_cast hdvd
        have := mersenne31_prime.eq_one_or_self_of_dvd _ hdvdN
        omega
      · have hdvd : (6 * (k : Int) + 7) ∣ 2147483647 := Int.dvd_of_tmod_eq_zero h
        have hdvdN : (6 * k + 7 : Nat) ∣ 2147483647 := by exact_mod_cast hdvd
        have := mersenne31_prime.eq_one_or_self_of_dvd _ hdvdN
        omega
    rw [if_neg hnohit]
    have hw6 : wrap32 ((6 * (k : Int) + 5) + 6) = 6 * ((k + 1 : Nat) : Int) + 5 := by
      rw [wrap32_eq_self (by omega) (by omega)]
      push_cast
      ring
    rw [hw6]
    exact ih (k + 1) (by omega) g (by omega)

/-- With enough fuel the source declares 2^31 - 1 composite. -/
theorem is_prime_M31 : is_prime 357913942 2147483647 = some 0 := by
  rw [is_prime, if_neg (by norm_num), if_neg (by norm_num), if_neg (by decide)]
  have h := isPrimeLoop_M31 357913940 0 (by norm_num) 357913942 (by norm_num)
  rw [show 6 * ((0 : Nat) : Int) + 5 = 5 by norm_num] at h
  exact h

/-- C7 counterexample: the i32 input 2147483647 = 2^31 - 1 is prime, yet
is_prime never returns 1 on it under any fuel: the wrapped overflow of
i*i keeps the loop running until the divisor candidate i+2 wraps into n
itself, and the function returns 0. -/
theorem c7_counterexample :
    Nat.Prime 2147483647 ∧ ¬ ∃ f : Nat, is_prime f 2147483647 = some 1 := by
  refine ⟨mersenne31_prime, ?_⟩
  rintro ⟨f, hf⟩
  have h0 : is_prime (max f 357913942) 2147483647 = some 0 :=
    is_prime_mono 357913942 _ _ 0 (le_max_right _ _) is_prime_M31
  have h1 : is_prime (max f 357913942) 2147483647 = some 1 :=
    is_prime_mono f _ _ 1 (le_max_left _ _) hf
  rw [h0] at h1
  exact absurd (Option.some.inj h1) (by norm_num)

end Chimichanga
